import Mathlib

/-!
# Verification of the streamplay job/log synchronization pipeline

A shallow embedding of the repository's synchronization core:

* `src/db/duckdb_client.py` — `insert_job_logs`, `upsert_job` and the
  `jobs` / `job_logs` tables (primary key `(job_id, seq)` on `job_logs`,
  primary key `id` on `jobs`);
* `src/web/db_sync.py` — `_sync_logs_for_job` and `_sync_jobs_and_logs_once`
  (the periodic reconciler);
* `src/duckdb_batch_writer.py` — `DuckDBWriter.insert_batch` and
  `batched_writer_task` (the size/time batched writer);
* `src/web/log_listener.py` — `_listener_loop` (the realtime fan-out).

Modelling conventions: Redis strings are Lean `String`s; Redis lists are Lean
lists; the DuckDB tables are Lean lists of row structures, with the primary-key
constraint modelled as an explicit guard that fails (rolls the transaction
back, leaving the table unchanged) exactly when an inserted key would collide;
Python `int(...)` on strings is modelled by an explicit decimal parser that
returns `Option Int`; `json.loads`/`json.dumps` are external library calls and
are modelled by an abstract parameter `loads : String → Option String` mapping
a source string to `some` of its re-serialized form on parse success and `none`
on parse failure.  Batch limits and timestamps that the source reads from the
environment or the clock are explicit parameters.
-/

/-- A digit character, as produced by Python `str` of a nonnegative integer. -/
def digitChar (d : Nat) : Char := Char.ofNat (48 + d)

/-- Base-10 digit list of a natural number, most significant first, with
explicit fuel (always sufficient at `n + 1`) to keep the recursion
structural. -/
def digitsOfAux : Nat → Nat → List Char
  | 0, _ => []
  | fuel + 1, n =>
    if n < 10 then [digitChar n]
    else digitsOfAux fuel (n / 10) ++ [digitChar (n % 10)]

/-- Base-10 digit list of a natural number, most significant first.
Models Python `str(n)` for `n >= 0` (used for `str(next_idx)` in
`_sync_logs_for_job`). -/
def digitsOf (n : Nat) : List Char := digitsOfAux (n + 1) n

/-- Model of Python `str(n)` for a natural number. -/
def natToStr (n : Nat) : String := String.mk (digitsOf n)

/-- Fold a digit-character list to the natural number it denotes; the
numeric core of Python `int(s)` on a string of decimal digits. -/
def natFromDigits (l : List Char) : Nat :=
  l.foldl (fun a c => 10 * a + (c.toNat - 48)) 0

/-- Model of `int(last_idx_val) if last_idx_val and last_idx_val.isdigit() else 0`
in `_sync_logs_for_job` (src/web/db_sync.py lines 77-78): an absent value, the
empty string, or a string containing any non-digit character yields 0. -/
def parseWatermark : Option String → Nat
  | none => 0
  | some s => if s.data ≠ [] ∧ s.data.all Char.isDigit then natFromDigits s.data else 0

/-- Strip leading and trailing space characters, as Python `int(s)` does
before parsing. -/
def stripSpaces (l : List Char) : List Char :=
  ((l.dropWhile (fun c => c = ' ')).reverse.dropWhile (fun c => c = ' ')).reverse

/-- Model of Python `int(s)` on a string: optional sign, then at least one
decimal digit; anything else raises, modelled as `none`.  (Exotic inputs such
as underscore separators or non-ASCII digits are outside the model.) -/
def pyInt (s : String) : Option Int :=
  match stripSpaces s.data with
  | [] => none
  | '-' :: ds =>
    if ds ≠ [] ∧ ds.all Char.isDigit then some (-(natFromDigits ds : Int)) else none
  | '+' :: ds =>
    if ds ≠ [] ∧ ds.all Char.isDigit then some (natFromDigits ds : Int) else none
  | ds =>
    if ds.all Char.isDigit then some (natFromDigits ds : Int) else none

/-! ## The durable `job_logs` table and `insert_job_logs` -/

/-- One row of the DuckDB `job_logs` table (src/db/duckdb_client.py,
`_ensure_schema`): primary key `(job_id, seq)`. -/
structure LogRow where
  jobId : String
  seq : Nat
  ts : Nat
  line : String
deriving DecidableEq, Repr

/-- The primary key of a `job_logs` row. -/
def keyOf (r : LogRow) : String × Nat := (r.jobId, r.seq)

/-- The `job_logs` primary-key invariant: no two rows share `(job_id, seq)`. -/
def TableUnique (t : List LogRow) : Prop := (t.map keyOf).Nodup

/-- Python `min(seqs)` over a nonempty list (0 for the impossible empty case). -/
def listMinimum : List Nat → Nat
  | [] => 0
  | a :: t => t.foldl Nat.min a

/-- Python `max(seqs)` over a nonempty list (0 for the impossible empty case). -/
def listMaximum : List Nat → Nat
  | [] => 0
  | a :: t => t.foldl Nat.max a

/-- Model of `insert_job_logs(job_id, rows)` (src/db/duckdb_client.py lines
85-117).  `rows` are `(seq, ts, line)` triples.  The function returns 0 on an
empty batch, queries the seqs already present for `job_id` in the batch's
`[min_seq, max_seq]` range, filters those out, and inserts the rest inside a
transaction.  The DuckDB `PRIMARY KEY (job_id, seq)` is modelled by the final
guard: if the surviving rows would collide with the table or with one another
the `executemany` raises and the transaction is rolled back (`.error`, table
unchanged); otherwise the rows are appended and their count returned. -/
def insertJobLogs (jobId : String) (rows : List (Nat × Nat × String))
    (tbl : List LogRow) : Except Unit (Nat × List LogRow) :=
  if rows = [] then .ok (0, tbl)
  else
    let seqs := rows.map (fun r => r.1)
    let minSeq := listMinimum seqs
    let maxSeq := listMaximum seqs
    let existingSeqs :=
      (tbl.filter (fun r => decide (r.jobId = jobId ∧ minSeq ≤ r.seq ∧ r.seq ≤ maxSeq))).map
        LogRow.seq
    let toInsert := rows.filter (fun r => !(existingSeqs.contains r.1))
    if toInsert = [] then .ok (0, tbl)
    else
      let newRows := toInsert.map (fun r => LogRow.mk jobId r.1 r.2.1 r.2.2)
      if (newRows.map keyOf).Nodup ∧ ∀ r ∈ newRows, keyOf r ∉ tbl.map keyOf then
        .ok (toInsert.length, tbl ++ newRows)
      else .error ()

/-- The table after an `insert_job_logs` call whose outcome is ignored by the
caller: `_sync_logs_for_job` wraps the call in `try/except` and proceeds either
way, so an error (rolled-back transaction) leaves the table unchanged. -/
def insertedTable (jobId : String) (rows : List (Nat × Nat × String))
    (tbl : List LogRow) : List LogRow :=
  match insertJobLogs jobId rows tbl with
  | .ok (_, t) => t
  | .error _ => tbl

/-! ## The `jobs` table and `upsert_job` -/

/-- The `params` value carried in a job record built by the reconciler:
either the raw hash string (kept when `json.loads` failed) or a successfully
parsed JSON value, represented by its `json.dumps` re-serialization. -/
inductive ParamsVal where
  | raw (s : String)
  | parsed (dumped : String)
deriving DecidableEq, Repr

/-- The argument of `upsert_job` as built by `_sync_jobs_and_logs_once`
(src/web/db_sync.py lines 50-60): integer fields already parsed to
`Option Int`, `params` as a `ParamsVal` when present. -/
structure JobRecord where
  id : String
  status : Option String
  created_at : Option Int
  started_at : Option Int
  finished_at : Option Int
  exit_code : Option Int
  result_path : Option String
  error : Option String
  params : Option ParamsVal
deriving DecidableEq, Repr

/-- One row of the DuckDB `jobs` table (src/db/duckdb_client.py,
`_ensure_schema`): primary key `id`. -/
structure JobsRow where
  id : String
  status : Option String
  created_at : Int
  started_at : Int
  finished_at : Int
  exit_code : Option Int
  result_path : Option String
  error : Option String
  params : Option String
  last_updated : Nat
deriving DecidableEq, Repr

/-- The `jobs` primary-key invariant: no two rows share `id`. -/
def JobsUnique (t : List JobsRow) : Prop := (t.map JobsRow.id).Nodup

/-- The row `upsert_job` inserts (src/db/duckdb_client.py lines 66-80):
`int(job.get(f) or 0)` maps an absent timestamp to 0, `exit_code` is kept as
is (`None` stays `NULL`), and a non-string `params` value is serialized with
`json.dumps` (a `ParamsVal.parsed` already carries that serialization). -/
def jobsRowOf (now : Nat) (j : JobRecord) : JobsRow :=
  { id := j.id
    status := j.status
    created_at := j.created_at.getD 0
    started_at := j.started_at.getD 0
    finished_at := j.finished_at.getD 0
    exit_code := j.exit_code
    result_path := j.result_path
    error := j.error
    params :=
      match j.params with
      | none => none
      | some (.raw s) => some s
      | some (.parsed d) => some d
    last_updated := now }

/-- Model of `upsert_job(job)` (src/db/duckdb_client.py lines 48-83): inside
one transaction, `DELETE FROM jobs WHERE id = ?` then `INSERT` the new row.
`now` models `int(datetime.utcnow().timestamp())`. -/
def upsertJob (now : Nat) (j : JobRecord) (tbl : List JobsRow) : List JobsRow :=
  tbl.filter (fun r => decide (r.id ≠ j.id)) ++ [jobsRowOf now j]

/-! ## The reconciler: `_sync_logs_for_job` and `_sync_jobs_and_logs_once` -/

/-- Redis `LRANGE key start stop` for `0 ≤ start ≤ stop`: the inclusive slice
of list positions `[start, stop]`, clipped to the list. -/
def lrange (l : List String) (start stop : Nat) : List String :=
  (l.drop start).take (stop + 1 - start)

/-- Redis `SET` on a key-value table: replace the binding if present,
else add it. -/
def setA (k : String) (v : String) : List (String × String) → List (String × String)
  | [] => [(k, v)]
  | (k', v') :: rest => if k' = k then (k, v) :: rest else (k', v') :: setA k v rest

/-- The ephemeral-plus-durable state the reconciler acts on:
`jobLogs` are the Redis lists `bench_job_log:<id>`, `syncKeys` the watermark
strings `bench_job_log_sync:<id>`, and `jobsTable` / `logsTable` the DuckDB
tables.  A key absent from `jobLogs` is an empty list (`LLEN` of a missing key
is 0), a key absent from `syncKeys` is an unset watermark. -/
structure RState where
  jobLogs : List (String × List String)
  syncKeys : List (String × String)
  jobsTable : List JobsRow
  logsTable : List LogRow
deriving DecidableEq, Repr

/-- Model of `_sync_logs_for_job(job_id)` (src/web/db_sync.py lines 73-110).
`limit` is `LOG_BATCH_LIMIT` (assumed ≥ 1, default 1000) and `ts` the value of
`_now_ts()`.  Reads the watermark (0 when absent or non-numeric), returns
unchanged when the list has no entry at or past it, otherwise reads the list
slice `[last_idx, min(llen - 1, last_idx + limit - 1)]`, tags entry `i` with
`seq = last_idx + i`, hands the batch to `insert_job_logs` ignoring its
outcome, and stores `str(last_idx + len(new_entries))` as the new watermark. -/
def syncLogsForJob (limit ts : Nat) (jobId : String) (st : RState) : RState :=
  let logList := (List.lookup jobId st.jobLogs).getD []
  let lastIdx := parseWatermark (List.lookup jobId st.syncKeys)
  let llen := logList.length
  if llen ≤ lastIdx then st
  else
    let endIdx := min (llen - 1) (lastIdx + limit - 1)
    let newEntries := lrange logList lastIdx endIdx
    if newEntries = [] then st
    else
      let rows := newEntries.enum.map (fun p => (lastIdx + p.1, ts, p.2))
      { st with
        logsTable := insertedTable jobId rows st.logsTable
        syncKeys := setA jobId (natToStr (lastIdx + newEntries.length)) st.syncKeys }

/-- The Redis job-metadata hash of one job, as read by `hgetall`: each field is
`none` when absent.  Only nonempty hashes are modelled (`_sync_jobs_and_logs_once`
skips an empty `hgetall` result before any processing). -/
structure Meta where
  status : Option String
  created_at : Option String
  started_at : Option String
  finished_at : Option String
  exit_code : Option String
  result_path : Option String
  error : Option String
  params : Option String
deriving DecidableEq, Repr

/-- Model of `int(meta.get(f)) if meta.get(f) else None` for the integer fields
of the job record: an absent or empty (falsy) field becomes `none`; a present
field that `int()` cannot parse raises, aborting the record construction. -/
def parseIntField (o : Option String) : Except Unit (Option Int) :=
  match o with
  | none => .ok none
  | some s =>
    if s.data = [] then .ok none
    else
      match pyInt s with
      | some n => .ok (some n)
      | none => .error ()

/-- Model of the job-record construction in `_sync_jobs_and_logs_once`
(src/web/db_sync.py lines 46-60).  `loads s` is `some` of the re-serialized
JSON value when `json.loads(s)` succeeds and `none` when it raises; the raise
is caught and the raw string kept.  An `int()` failure on a present integer
field escapes the record construction (`.error`). -/
def buildJobRecord (loads : String → Option String) (jobId : String) (m : Meta) :
    Except Unit JobRecord :=
  let params : Option ParamsVal :=
    match m.params with
    | none => none
    | some s =>
      if s.data = [] then none
      else
        match loads s with
        | some d => some (.parsed d)
        | none => some (.raw s)
  match parseIntField m.created_at with
  | .error u => .error u
  | .ok created_at =>
    match parseIntField m.started_at with
    | .error u => .error u
    | .ok started_at =>
      match parseIntField m.finished_at with
      | .error u => .error u
      | .ok finished_at =>
        match parseIntField m.exit_code with
        | .error u => .error u
        | .ok exit_code =>
          .ok { id := jobId, status := m.status, created_at, started_at, finished_at,
                exit_code, result_path := m.result_path, error := m.error, params }

/-- The per-job body of `_sync_jobs_and_logs_once` (src/web/db_sync.py lines
39-66): build the record, upsert it, then sync the job's logs; any exception
(here: an unparseable integer field) is caught by the per-job handler and the
job is skipped, leaving the state unchanged. -/
def processJob (loads : String → Option String) (limit ts now : Nat)
    (st : RState) (kv : String × Meta) : RState :=
  match buildJobRecord loads kv.1 kv.2 with
  | .error _ => st
  | .ok rec =>
    syncLogsForJob limit ts kv.1 { st with jobsTable := upsertJob now rec st.jobsTable }

/-- Model of one reconciliation cycle `_sync_jobs_and_logs_once` over the
enumerated job hashes. -/
def syncJobsAndLogsOnce (loads : String → Option String) (limit ts now : Nat)
    (hashes : List (String × Meta)) (st : RState) : RState :=
  hashes.foldl (processJob loads limit ts now) st

/-! ## The batched writer (`src/duckdb_batch_writer.py`) -/

/-- One record submitted to the batched writer (the event dicts of
`src/duckdb_batch_writer.py`; the float timestamp is modelled as an integer,
the JSON payload by its serialized string). -/
structure Event where
  session_id : String
  timestamp : Int
  type_ : String
  payload : String
deriving DecidableEq, Repr

/-- Model of `DuckDBWriter.insert_batch(rows)` (src/duckdb_batch_writer.py
lines 35-44) against a healthy durable store: a no-op on an empty list,
otherwise one `executemany` inserting every row and returning the row count.
(`insertBatchF` below is the same call with a store failure injected.) -/
def insertBatch (rows tbl : List Event) : List Event × Nat :=
  if rows = [] then (tbl, 0)
  else (tbl ++ rows, rows.length)

/-- Model of `DuckDBWriter.insert_batch(rows)` with the store's outcome
injected.  `outcome = none` is a healthy store; `outcome = some k` makes the
`executemany` raise after writing the first `k` rows: the rows are inserted
one by one with no surrounding transaction, so the written prefix stays in
the `events` table (`.error` carries the table at the moment of the raise). -/
def insertBatchF (outcome : Option Nat) (rows tbl : List Event) :
    Except (List Event) (List Event × Nat) :=
  if rows = [] then .ok (tbl, 0)
  else
    match outcome with
    | none => .ok (tbl ++ rows, rows.length)
    | some k => .error (tbl ++ rows.take k)

/-- One loop input of `batched_writer_task`: either `queue.get` returned an
item within the timeout, or `asyncio.wait_for` timed out. -/
inductive WIn where
  | item (e : Event)
  | timeout
deriving DecidableEq, Repr

/-- The writer's state: the in-memory `buffer` and the durable `events`
table. -/
structure WSt where
  buf : List Event
  tbl : List Event
deriving DecidableEq, Repr

/-- One iteration of the `while True` loop of `batched_writer_task`
(src/duckdb_batch_writer.py lines 60-83) against a healthy durable store.
On an item, append to the buffer and flush the entire buffer in one
`insert_batch` call when its size reaches `BATCH_SIZE`; on a timeout, flush
the entire buffer if nonempty.  Returns the new state and `some n` when a
flush of `n` records happened. -/
def wstep (B : Nat) (s : WSt) (i : WIn) : WSt × Option Nat :=
  match i with
  | .item e =>
    let buf1 := s.buf ++ [e]
    if B ≤ buf1.length then
      let p := insertBatch buf1 s.tbl
      (⟨[], p.1⟩, some p.2)
    else (⟨buf1, s.tbl⟩, none)
  | .timeout =>
    if s.buf = [] then (s, none)
    else
      let p := insertBatch s.buf s.tbl
      (⟨[], p.1⟩, some p.2)

/-- One iteration of the `while True` loop of `batched_writer_task` with the
store's outcome injected.  On an item, a flush failure is raised inside the
`try` body and caught by the `except Exception` handler: the buffer (appended
item included) is left exactly as it was — the `buffer.clear()` line is never
reached — and the loop continues.  On a timeout, the flush runs inside the
`except asyncio.TimeoutError:` handler; an exception raised there is not
dispatched to the sibling `except Exception` clause, so it escapes the `try`
statement and the `while` loop, terminating the writer task (`.error`,
carrying the state at the moment of death). -/
def wstepF (B : Nat) (outcome : Option Nat) (s : WSt) (i : WIn) :
    Except WSt (WSt × Option Nat) :=
  match i with
  | .item e =>
    let buf1 := s.buf ++ [e]
    if B ≤ buf1.length then
      match insertBatchF outcome buf1 s.tbl with
      | .ok (t, n) => .ok (⟨[], t⟩, some n)
      | .error t => .ok (⟨buf1, t⟩, none)
    else .ok (⟨buf1, s.tbl⟩, none)
  | .timeout =>
    if s.buf = [] then .ok (s, none)
    else
      match insertBatchF outcome s.buf s.tbl with
      | .ok (t, n) => .ok (⟨[], t⟩, some n)
      | .error t => .error ⟨s.buf, t⟩

/-- Run the writer loop (durable store healthy) over a list of inputs,
collecting the flush sizes in order. -/
def wrunEvents (B : Nat) (s : WSt) : List WIn → WSt × List Nat
  | [] => (s, [])
  | i :: rest =>
    let p := wstep B s i
    let q := wrunEvents B p.1 rest
    (q.1, (match p.2 with | some n => [n] | none => []) ++ q.2)

/-- Run the writer loop with a per-step store outcome injected, until the
input trace ends or an exception escapes the loop.  Returns the final (or
death) state, the flush sizes, and whether the task died; once an exception
escapes, the remaining inputs are never handled. -/
def wrunF (B : Nat) (s : WSt) :
    List (Option Nat × WIn) → WSt × List Nat × Bool
  | [] => (s, [], false)
  | (f, i) :: rest =>
    match wstepF B f s i with
    | .error sd => (sd, [], true)
    | .ok (s1, fl) =>
      let q := wrunF B s1 rest
      (q.1, (match fl with | some n => [n] | none => []) ++ q.2.1, q.2.2)

/-- Timed run of `batched_writer_task`: inputs are queue arrivals
`(arrival time, event)` in nondecreasing order of time.  `asyncio.wait_for`
restarts after every received item or timeout, so a timeout flush fires at
`waitStart + T` only when the next arrival comes `T` or more after the wait
began; consecutive further timeouts before that arrival find an empty buffer
and do nothing.  Flushes are collected as `(time, size)` pairs. -/
def wrunTimed (B T : Nat) (waitStart : Nat) (s : WSt) :
    List (Nat × Event) → WSt × List (Nat × Nat)
  | [] => (s, [])
  | (ta, e) :: rest =>
    let pre :=
      if waitStart + T ≤ ta ∧ s.buf ≠ [] then
        ((⟨[], s.tbl ++ s.buf⟩ : WSt), [(waitStart + T, s.buf.length)])
      else (s, [])
    let buf1 := pre.1.buf ++ [e]
    if B ≤ buf1.length then
      let q := wrunTimed B T ta ⟨[], pre.1.tbl ++ buf1⟩ rest
      (q.1, pre.2 ++ [(ta, buf1.length)] ++ q.2)
    else
      let q := wrunTimed B T ta ⟨buf1, pre.1.tbl⟩ rest
      (q.1, pre.2 ++ q.2)

/-- The timing discipline claimed by the specification, evaluated on a timed
run: a flush happens once `FLUSH_INTERVAL` has elapsed since the last flush
while the buffer is nonempty.  Consequence checked here: starting from the
loop entry (where `last_flush = time.time()`, the time of the first wait), if
the run performs no flush at all even though the buffer has been nonempty
since the first arrival, then every processed arrival must lie within the
first interval `[t0, t0 + T)`. -/
def specTimingHolds (B T : Nat) (arrivals : List (Nat × Event)) : Bool :=
  match arrivals with
  | [] => true
  | (t0, _) :: _ =>
    !(wrunTimed B T t0 ⟨[], []⟩ arrivals).2.isEmpty
      || arrivals.all (fun p => p.1 < t0 + T)

/-! ## The realtime fan-out (`src/web/log_listener.py`) -/

/-- A Python value as it appears in a decoded broadcast payload: `None`, a
string, an integer, or a boolean (enough to express Python truthiness for the
`job_id` and `line` checks). -/
inductive PVal where
  | vnone
  | vstr (s : String)
  | vint (n : Int)
  | vbool (b : Bool)
deriving DecidableEq, Repr

/-- Python truthiness of a `PVal`. -/
def truthy : PVal → Bool
  | .vnone => false
  | .vstr s => !(s.data = [])
  | .vint n => !(n = 0)
  | .vbool b => b

/-- The result of `json.loads` on a message's data: a JSON object (from which
`payload.get("job_id")` / `payload.get("line")` read, `vnone` for an absent
key), or any non-object value, on which `.get` raises `AttributeError`. -/
inductive JVal where
  | jdict (job_id line : PVal)
  | jother
deriving DecidableEq, Repr

/-- One pubsub message as yielded by `ps.listen()`: its `type` field and its
`data` field (`none` models a missing/None data field). -/
structure Msg where
  type_ : String
  data : Option String
deriving DecidableEq, Repr

/-- Model of the body of the `for message in ps.listen()` loop in
`_listener_loop` (src/web/log_listener.py lines 40-64).  `jl` models
`json.loads` (raising = `.error`); `cb` the registered emit callback, which
may itself raise.  The value is the list of deliveries attempted in this
iteration (empty or a singleton); `.error` would mean an exception escaping
the message handling — the nested `try/except` blocks make every branch
return `.ok`. -/
def handleMsg (jl : String → Except Unit JVal)
    (cb : Option (PVal → PVal → Except Unit Unit)) (m : Msg) :
    Except Unit (List (PVal × PVal)) :=
  if m.type_ ≠ "message" then .ok []
  else
    match m.data with
    | none => .ok []
    | some d =>
      if d.data = [] then .ok []
      else
        let attempt : Except Unit (List (PVal × PVal)) :=
          match jl d with
          | .error u => .error u
          | .ok .jother => Except.error ()
          | .ok (.jdict jid line) =>
            match cb with
            | some f =>
              if truthy jid ∧ line ≠ .vnone then
                match f jid line with
                | .ok _ => .ok [(jid, line)]
                | .error _ => .ok [(jid, line)]
              else .ok []
            | none => .ok []
        match attempt with
        | .ok ds => .ok ds
        | .error _ => .ok []

/-- The listener loop over a finite message trace: processes messages in
order, accumulating attempted deliveries; an exception escaping one message's
handling would terminate the loop (second component `true`) and drop all
later messages. -/
def listenerRun (jl : String → Except Unit JVal)
    (cb : Option (PVal → PVal → Except Unit Unit)) :
    List Msg → List (PVal × PVal) × Bool
  | [] => ([], false)
  | m :: rest =>
    match handleMsg jl cb m with
    | .error _ => ([], true)
    | .ok ds =>
      let q := listenerRun jl cb rest
      (ds ++ q.1, q.2)

/-- The delivery a message should produce according to the fan-out contract:
a well-formed message (`type = "message"`, nonempty data, JSON object payload)
with a registered callback, truthy `job_id` and non-`None` `line` is delivered
once; everything else is dropped. -/
def deliveryOf (jl : String → Except Unit JVal) (cbPresent : Bool) (m : Msg) :
    List (PVal × PVal) :=
  if m.type_ = "message" then
    match m.data with
    | none => []
    | some d =>
      if d.data = [] then []
      else
        match jl d with
        | .ok (.jdict jid line) =>
          if cbPresent ∧ truthy jid ∧ line ≠ .vnone then [(jid, line)] else []
        | _ => []
  else []

/-! ## Concrete states and parameters used by the claim theorems -/

/-- The C1 scenario state: job `j1` with 5 appended log lines, no watermark
key, empty durable tables. -/
def st5 : RState :=
  { jobLogs := [("j1", ["l0", "l1", "l2", "l3", "l4"])], syncKeys := [],
    jobsTable := [], logsTable := [] }

/-- Whether an optional integer hash field survives the reconciler's parse:
absent or empty fields are fine (they become `null`); a present field must be
parseable by `int()`. -/
def intFieldOk (o : Option String) : Bool :=
  match o with
  | none => true
  | some s => s.data.isEmpty || (pyInt s).isSome

/-- Steady traffic for the C3 counterexample: five events arriving one time
unit apart, the first at the loop-entry time 0. -/
def cexArrivals : List (Nat × Event) :=
  [(0, ⟨"s", 0, "click", "p0"⟩), (1, ⟨"s", 1, "click", "p1"⟩),
    (2, ⟨"s", 2, "click", "p2"⟩), (3, ⟨"s", 3, "click", "p3"⟩),
    (4, ⟨"s", 4, "click", "p4"⟩)]

/-- The C4 witness records: the same job id upserted first as `queued`, then
as `running`. -/
def jobQueued : JobRecord :=
  { id := "j1", status := some "queued", created_at := some 5, started_at := none,
    finished_at := none, exit_code := none, result_path := none, error := none,
    params := none }

/-- Second upsert of the same id with a different status. -/
def jobRunning : JobRecord :=
  { jobQueued with status := some "running", started_at := some 6 }

/-- A job hash whose `created_at` field is an unparseable integer string. -/
def metaBad : Meta :=
  { status := some "done", created_at := some "abc", started_at := none,
    finished_at := none, exit_code := none, result_path := none, error := none,
    params := none }

/-- A well-formed job hash with a `params` string that does not parse as
JSON. -/
def metaGood : Meta :=
  { status := some "ok", created_at := some "5", started_at := none,
    finished_at := none, exit_code := none, result_path := none, error := none,
    params := some "notjson" }

/-- An empty reconciler state. -/
def rstEmpty : RState := { jobLogs := [], syncKeys := [], jobsTable := [], logsTable := [] }

/-- A `json.loads` model that fails on every input. -/
def loadsNone : String → Option String := fun _ => none

/-- The C6 scenario state: job `j1` produced the 6 lines `line0..line5`; the
worker's `LTRIM` cap (4 here, 2000 in the source) kept only `line2..line5`;
the watermark is 1 (`line0` is already durable, `line1` was evicted unread). -/
def stTrim : RState :=
  { jobLogs := [("j1", ["line2", "line3", "line4", "line5"])],
    syncKeys := [("j1", "1")],
    jobsTable := [],
    logsTable := [⟨"j1", 0, 5, "line0"⟩] }

/-- The `json.loads` model for the fan-out witnesses: `"good"` decodes to a
well-formed payload, `"nondict"` to a non-object JSON value, everything else
raises. -/
def jlC8 : String → Except Unit JVal := fun d =>
  if d = "good" then .ok (.jdict (.vstr "j1") (.vstr "hello"))
  else if d = "nondict" then .ok .jother
  else .error ()

/-- A subscriber callback that raises on every delivery. -/
def cbThrow : PVal → PVal → Except Unit Unit := fun _ _ => .error ()

/-- A broadcast message with the given data string. -/
def msgOf (d : String) : Msg := { type_ := "message", data := some d }

/-- The `json.loads` model for the C10 witness cases: each tag decodes to a
payload exercising one truthiness case of the delivery condition. -/
def jlC10 : String → Except Unit JVal := fun d =>
  if d = "empty-line" then .ok (.jdict (.vstr "j1") (.vstr ""))
  else if d = "empty-jid" then .ok (.jdict (.vstr "") (.vstr "x"))
  else if d = "zero-jid" then .ok (.jdict (.vint 0) (.vstr "x"))
  else if d = "false-jid" then .ok (.jdict (.vbool false) (.vstr "x"))
  else if d = "none-jid" then .ok (.jdict .vnone (.vstr "x"))
  else if d = "none-line" then .ok (.jdict (.vstr "j1") .vnone)
  else .ok .jother

/-- A subscriber callback that always succeeds. -/
def cbOk : PVal → PVal → Except Unit Unit := fun _ _ => .ok ()

/-- The C9 scenario state: the watermark key holds the corrupted string
`"oops"`, while both log lines are already durable. -/
def stMal : RState :=
  { jobLogs := [("j1", ["x0", "x1"])],
    syncKeys := [("j1", "oops")],
    jobsTable := [],
    logsTable := [⟨"j1", 0, 3, "x0"⟩, ⟨"j1", 1, 3, "x1"⟩] }

/-- First event of the C7 scenarios. -/
def evA : Event := ⟨"s", 0, "click", "a"⟩

/-- Second event of the C7 scenarios. -/
def evB : Event := ⟨"s", 1, "click", "b"⟩

/-- Third event of the C7 scenarios. -/
def evC : Event := ⟨"s", 2, "click", "c"⟩

/-- The C7 counterexample trace: two items arrive, then a timeout flush during
which the store raises after writing one row, then more queue activity that a
live writer would have flushed. -/
def crashTrace : List (Option Nat × WIn) :=
  [(none, .item evA), (none, .item evB), (some 1, .timeout),
    (none, .item evC), (none, .timeout)]

/-- The same queue activity as `crashTrace` with a healthy store throughout. -/
def healthyTrace : List (Option Nat × WIn) :=
  [(none, .item evA), (none, .item evB), (none, .timeout),
    (none, .item evC), (none, .timeout)]

/-! ## Helper lemmas: decimal strings -/

theorem digitChar_isDigit {d : Nat} (h : d < 10) : (digitChar d).isDigit = true := by
  interval_cases d <;> decide

theorem digitChar_toNat {d : Nat} (h : d < 10) : (digitChar d).toNat = 48 + d := by
  interval_cases d <;> decide

theorem natFromDigits_append (l : List Char) (c : Char) :
    natFromDigits (l ++ [c]) = 10 * natFromDigits l + (c.toNat - 48) := by
  unfold natFromDigits
  rw [List.foldl_append]
  rfl

theorem digitsOfAux_ne_nil (fuel n : Nat) (h : n < fuel) : digitsOfAux fuel n ≠ [] := by
  match fuel with
  | f + 1 =>
    rw [digitsOfAux]
    split
    · simp
    · simp

theorem digitsOf_ne_nil (n : Nat) : digitsOf n ≠ [] :=
  digitsOfAux_ne_nil (n + 1) n (by omega)

theorem digitsOfAux_all_digit (fuel : Nat) :
    ∀ n, n < fuel → (digitsOfAux fuel n).all Char.isDigit = true := by
  induction fuel with
  | zero => intro n h; omega
  | succ f ih =>
    intro n h
    rw [digitsOfAux]
    split
    · next h10 => simpa using digitChar_isDigit h10
    · next h10 =>
      rw [List.all_append]
      have hdiv : n / 10 < f := by
        have := Nat.div_lt_self (n := n) (by omega) (by omega : 1 < 10)
        omega
      have h1 := ih (n / 10) hdiv
      have h2 := digitChar_isDigit (d := n % 10) (Nat.mod_lt _ (by omega))
      simp [h1, h2]

theorem digitsOf_all_digit (n : Nat) : (digitsOf n).all Char.isDigit = true :=
  digitsOfAux_all_digit (n + 1) n (by omega)

theorem natFromDigits_digitsOfAux (fuel : Nat) :
    ∀ n, n < fuel → natFromDigits (digitsOfAux fuel n) = n := by
  induction fuel with
  | zero => intro n h; omega
  | succ f ih =>
    intro n h
    rw [digitsOfAux]
    split
    · next h10 =>
      unfold natFromDigits
      simp [List.foldl, digitChar_toNat h10]
    · next h10 =>
      have hdiv : n / 10 < f := by
        have := Nat.div_lt_self (n := n) (by omega) (by omega : 1 < 10)
        omega
      rw [natFromDigits_append, ih (n / 10) hdiv,
        digitChar_toNat (d := n % 10) (Nat.mod_lt _ (by omega))]
      omega

theorem natFromDigits_digitsOf (n : Nat) : natFromDigits (digitsOf n) = n :=
  natFromDigits_digitsOfAux (n + 1) n (by omega)

/-- Reading back a watermark stored as `str(n)` yields `n`. -/
theorem parseWatermark_natToStr (n : Nat) : parseWatermark (some (natToStr n)) = n := by
  show (if (natToStr n).data ≠ [] ∧ (natToStr n).data.all Char.isDigit then
      natFromDigits (natToStr n).data else 0) = n
  have hd : (natToStr n).data = digitsOf n := rfl
  rw [hd, if_pos ⟨digitsOf_ne_nil n, digitsOf_all_digit n⟩]
  exact natFromDigits_digitsOf n

/-! ## Helper lemmas: the key-value store -/

theorem lookup_setA_self (k : String) (v : String) (l : List (String × String)) :
    List.lookup k (setA k v l) = some v := by
  induction l with
  | nil => simp [setA, List.lookup]
  | cons p rest ih =>
    obtain ⟨k', v'⟩ := p
    by_cases h : k' = k
    · simp [setA, h, List.lookup]
    · simp only [setA, if_neg h, List.lookup]
      have : (k == k') = false := by
        simpa using fun hkk => h hkk.symm
      rw [this]
      exact ih

/-! ## Helper lemmas: list minimum / maximum -/

theorem foldl_min_le_init (t : List Nat) (a : Nat) : t.foldl Nat.min a ≤ a := by
  induction t generalizing a with
  | nil => exact le_refl a
  | cons b t ih => exact le_trans (ih (Nat.min a b)) (Nat.min_le_left a b)

theorem foldl_min_le_mem (t : List Nat) (a x : Nat) (hx : x ∈ t) :
    t.foldl Nat.min a ≤ x := by
  induction t generalizing a with
  | nil => cases hx
  | cons b t ih =>
    rcases List.mem_cons.mp hx with h | h
    · subst h
      exact le_trans (foldl_min_le_init t (Nat.min a x)) (Nat.min_le_right a x)
    · exact ih (Nat.min a b) h

theorem listMinimum_le {l : List Nat} {x : Nat} (hx : x ∈ l) : listMinimum l ≤ x := by
  match l with
  | a :: t =>
    show t.foldl Nat.min a ≤ x
    rcases List.mem_cons.mp hx with h | h
    · subst h
      exact foldl_min_le_init t x
    · exact foldl_min_le_mem t a x h

theorem le_foldl_max_init (t : List Nat) (a : Nat) : a ≤ t.foldl Nat.max a := by
  induction t generalizing a with
  | nil => exact le_refl a
  | cons b t ih => exact le_trans (Nat.le_max_left a b) (ih (Nat.max a b))

theorem le_foldl_max_mem (t : List Nat) (a x : Nat) (hx : x ∈ t) :
    x ≤ t.foldl Nat.max a := by
  induction t generalizing a with
  | nil => cases hx
  | cons b t ih =>
    rcases List.mem_cons.mp hx with h | h
    · subst h
      exact le_trans (Nat.le_max_right a x) (le_foldl_max_init t (Nat.max a x))
    · exact ih (Nat.max a b) h

theorem le_listMaximum {l : List Nat} {x : Nat} (hx : x ∈ l) : x ≤ listMaximum l := by
  match l with
  | a :: t =>
    show x ≤ t.foldl Nat.max a
    rcases List.mem_cons.mp hx with h | h
    · subst h
      exact le_foldl_max_init t x
    · exact le_foldl_max_mem t a x h

/-! ## Helper lemmas: `_sync_logs_for_job` -/

theorem syncLogs_noop (limit ts : Nat) (jobId : String) (st : RState)
    (h : ((List.lookup jobId st.jobLogs).getD []).length ≤
      parseWatermark (List.lookup jobId st.syncKeys)) :
    syncLogsForJob limit ts jobId st = st := by
  simp only [syncLogsForJob]
  rw [if_pos h]

theorem syncLogs_step (limit ts : Nat) (jobId : String) (st : RState)
    (l : List String) (w : Nat)
    (hl : (List.lookup jobId st.jobLogs).getD [] = l)
    (hw0 : parseWatermark (List.lookup jobId st.syncKeys) = w)
    (hlim : 1 ≤ limit) (hw : w < l.length) :
    syncLogsForJob limit ts jobId st =
      { st with
        logsTable := insertedTable jobId
          (((l.drop w).take (min (l.length - w) limit)).enum.map
            (fun p => (w + p.1, ts, p.2))) st.logsTable
        syncKeys := setA jobId (natToStr (w + min (l.length - w) limit)) st.syncKeys } := by
  have hlen : ((l.drop w).take (min (l.length - w) limit)).length
      = min (l.length - w) limit := by
    rw [List.length_take, List.length_drop]
    omega
  have hne : (l.drop w).take (min (l.length - w) limit) ≠ [] := by
    intro h0
    rw [h0] at hlen
    simp only [List.length_nil] at hlen
    omega
  simp only [syncLogsForJob, lrange]
  rw [hl, hw0]
  rw [if_neg (by omega : ¬ l.length ≤ w)]
  have hm : min (l.length - 1) (w + limit - 1) + 1 - w = min (l.length - w) limit := by
    omega
  rw [hm, if_neg hne, hlen]

theorem syncLogs_jobLogs (limit ts : Nat) (jobId : String) (st : RState) :
    (syncLogsForJob limit ts jobId st).jobLogs = st.jobLogs := by
  simp only [syncLogsForJob]
  split
  · rfl
  · split <;> rfl

theorem syncLogs_jobsTable (limit ts : Nat) (jobId : String) (st : RState) :
    (syncLogsForJob limit ts jobId st).jobsTable = st.jobsTable := by
  simp only [syncLogsForJob]
  split
  · rfl
  · split <;> rfl

/-! ## Helper lemmas: `insert_job_logs` -/

theorem insertJobLogs_ok_unique {jobId : String} {rows : List (Nat × Nat × String)}
    {tbl tbl' : List LogRow} {k : Nat} (h : TableUnique tbl)
    (he : insertJobLogs jobId rows tbl = .ok (k, tbl')) :
    TableUnique tbl' := by
  simp only [insertJobLogs] at he
  split at he
  · cases he
    exact h
  · split at he
    · cases he
      exact h
    · split at he
      · next hpk =>
        cases he
        unfold TableUnique at h ⊢
        rw [List.map_append, List.nodup_append]
        refine ⟨h, hpk.1, ?_⟩
        intro a ha hb
        rcases List.mem_map.mp hb with ⟨r, hr, hra⟩
        exact hpk.2 r hr (hra ▸ ha)
      · cases he

theorem insertedTable_unique {jobId : String} {rows : List (Nat × Nat × String)}
    {tbl : List LogRow} (h : TableUnique tbl) :
    TableUnique (insertedTable jobId rows tbl) := by
  unfold insertedTable
  cases he : insertJobLogs jobId rows tbl with
  | error u => exact h
  | ok p =>
    obtain ⟨k, t⟩ := p
    exact insertJobLogs_ok_unique h he

theorem fold_insert_unique (calls : List (String × List (Nat × Nat × String))) :
    TableUnique (calls.foldl (fun t c => insertedTable c.1 c.2 t) []) := by
  have main : ∀ (cs : List (String × List (Nat × Nat × String))) (t : List LogRow),
      TableUnique t → TableUnique (cs.foldl (fun t c => insertedTable c.1 c.2 t) t) := by
    intro cs
    induction cs with
    | nil => intro t ht; exact ht
    | cons c rest ih =>
      intro t ht
      exact ih _ (insertedTable_unique ht)
  exact main calls [] (by simp [TableUnique])

theorem insertJobLogs_replay {jobId : String} {rows : List (Nat × Nat × String)}
    {tbl tbl' : List LogRow} {k : Nat}
    (he : insertJobLogs jobId rows tbl = .ok (k, tbl')) :
    insertJobLogs jobId rows tbl' = .ok (0, tbl') := by
  by_cases hrows : rows = []
  · subst hrows
    simp only [insertJobLogs, if_pos rfl] at he ⊢
    cases he
    rfl
  · simp only [insertJobLogs, if_neg hrows] at he ⊢
    split at he
    · next hskip =>
      cases he
      rw [if_pos hskip]
    · next hskip =>
      split at he
      · next hpk =>
        cases he
        rw [if_pos]
        rw [List.filter_eq_nil_iff]
        intro r hr
        simp only [Bool.not_eq_true', Bool.not_eq_false]
        apply List.elem_iff.mpr
        by_cases hc : ((tbl.filter (fun row => decide (row.jobId = jobId ∧
            listMinimum (rows.map (fun r => r.1)) ≤ row.seq ∧
            row.seq ≤ listMaximum (rows.map (fun r => r.1))))).map LogRow.seq).contains r.1
        · rcases List.mem_map.mp (List.elem_iff.mp hc) with ⟨row, hrow, hrs⟩
          refine List.mem_map.mpr ⟨row, ?_, hrs⟩
          exact List.mem_filter.mpr ⟨List.mem_append_left _ (List.mem_filter.mp hrow).1,
            (List.mem_filter.mp hrow).2⟩
        · have hcf : ((tbl.filter (fun row => decide (row.jobId = jobId ∧
              listMinimum (rows.map (fun r => r.1)) ≤ row.seq ∧
              row.seq ≤ listMaximum (rows.map (fun r => r.1))))).map LogRow.seq).contains r.1
              = false := by
            cases hcc : ((tbl.filter (fun row => decide (row.jobId = jobId ∧
                listMinimum (rows.map (fun r => r.1)) ≤ row.seq ∧
                row.seq ≤ listMaximum (rows.map (fun r => r.1))))).map LogRow.seq).contains r.1
            · rfl
            · exact absurd hcc hc
          have hrIns : r ∈ rows.filter (fun r => !(((tbl.filter (fun row =>
              decide (row.jobId = jobId ∧
              listMinimum (rows.map (fun r => r.1)) ≤ row.seq ∧
              row.seq ≤ listMaximum (rows.map (fun r => r.1))))).map LogRow.seq).contains r.1)) :=
            List.mem_filter.mpr ⟨hr, by rw [hcf]; rfl⟩
          refine List.mem_map.mpr ⟨LogRow.mk jobId r.1 r.2.1 r.2.2, ?_, rfl⟩
          refine List.mem_filter.mpr ⟨?_, ?_⟩
          · exact List.mem_append_right _ (List.mem_map.mpr ⟨r, hrIns, rfl⟩)
          · have h1 := listMinimum_le (l := rows.map (fun r => r.1))
              (List.mem_map.mpr ⟨r, hr, rfl⟩)
            have h2 := le_listMaximum (l := rows.map (fun r => r.1))
              (List.mem_map.mpr ⟨r, hr, rfl⟩)
            simp [h1, h2]
      · cases he

/-! ## Helper lemmas: `upsert_job` -/

theorem upsertJob_filter_self (now : Nat) (j : JobRecord) (tbl : List JobsRow) :
    (upsertJob now j tbl).filter (fun r => decide (r.id = j.id)) = [jobsRowOf now j] := by
  unfold upsertJob
  rw [List.filter_append, List.filter_filter]
  have h1 : tbl.filter (fun a => decide (a.id = j.id) && decide (a.id ≠ j.id)) = [] := by
    rw [List.filter_eq_nil_iff]
    intro a _
    by_cases h : a.id = j.id <;> simp [h]
  have h2 : [jobsRowOf now j].filter (fun r => decide (r.id = j.id)) = [jobsRowOf now j] := by
    simp [jobsRowOf]
  rw [h1, h2, List.nil_append]

theorem upsertJob_filter_ne (now : Nat) (j : JobRecord) (tbl : List JobsRow) :
    (upsertJob now j tbl).filter (fun r => decide (r.id ≠ j.id)) =
      tbl.filter (fun r => decide (r.id ≠ j.id)) := by
  unfold upsertJob
  rw [List.filter_append, List.filter_filter]
  have h2 : [jobsRowOf now j].filter (fun r => decide (r.id ≠ j.id)) = [] := by
    simp [jobsRowOf]
  rw [h2, List.append_nil]
  congr 1
  funext a
  by_cases h : a.id = j.id <;> simp [h]

theorem upsertJob_unique {now : Nat} {j : JobRecord} {tbl : List JobsRow}
    (h : JobsUnique tbl) : JobsUnique (upsertJob now j tbl) := by
  unfold JobsUnique upsertJob
  rw [List.map_append, List.nodup_append]
  refine ⟨List.Nodup.sublist ((List.filter_sublist tbl).map JobsRow.id) h,
    List.nodup_singleton _, ?_⟩
  intro a ha hb
  have haj : a = (jobsRowOf now j).id := by simpa [jobsRowOf] using hb
  rcases List.mem_map.mp ha with ⟨r, hr, hra⟩
  have := (List.mem_filter.mp hr).2
  simp only [decide_eq_true_iff] at this
  exact this (by rw [hra, haj]; rfl)

/-! ## Helper lemmas: batched writer -/

theorem wrunEvents_append (B : Nat) (s : WSt) (l1 l2 : List WIn) :
    wrunEvents B s (l1 ++ l2) =
      ((wrunEvents B (wrunEvents B s l1).1 l2).1,
        (wrunEvents B s l1).2 ++ (wrunEvents B (wrunEvents B s l1).1 l2).2) := by
  induction l1 generalizing s with
  | nil => simp [wrunEvents]
  | cons i rest ih =>
    simp only [List.cons_append, wrunEvents, List.append_eq]
    rw [ih]
    simp [List.append_assoc]

theorem wrunEvents_small (B : Nat) (s : WSt) (es : List Event)
    (h : s.buf.length + es.length < B) :
    wrunEvents B s (es.map WIn.item) = (⟨s.buf ++ es, s.tbl⟩, []) := by
  induction es generalizing s with
  | nil => simp [wrunEvents]
  | cons e rest ih =>
    simp only [List.map_cons, wrunEvents]
    have hlt : ¬ B ≤ s.buf.length + 1 := by
      simp only [List.length_cons] at h
      omega
    have hstep : wstep B s (WIn.item e) = (⟨s.buf ++ [e], s.tbl⟩, none) := by
      simp [wstep, hlt]
    rw [hstep]
    have hrec := ih ⟨s.buf ++ [e], s.tbl⟩ (by
      simp only [List.length_append, List.length_singleton]
      simp only [List.length_cons] at h
      omega)
    rw [hrec]
    simp [List.append_assoc]

theorem wrun_flush_on_timeout (B : Nat) (es : List Event) (hne : es ≠ [])
    (hB : es.length + 1 = B) :
    wrunEvents B ⟨[], []⟩ (es.map WIn.item ++ [WIn.timeout]) = (⟨[], es⟩, [es.length]) := by
  rw [wrunEvents_append, wrunEvents_small B ⟨[], []⟩ es (by simp; omega)]
  simp only [List.nil_append]
  simp [wrunEvents, wstep, hne, insertBatch]

theorem wrun_flush_on_size (B : Nat) (es : List Event) (hne : es ≠ [])
    (hB : es.length = B) :
    wrunEvents B ⟨[], []⟩ (es.map WIn.item) = (⟨[], es⟩, [es.length]) := by
  obtain ⟨l, e, rfl⟩ : ∃ l e, es = l ++ [e] :=
    ⟨es.dropLast, es.getLast hne, (List.dropLast_append_getLast hne).symm⟩
  rw [List.map_append, wrunEvents_append,
    wrunEvents_small B ⟨[], []⟩ l (by
      simp only [List.length_append, List.length_singleton] at hB
      simp only [List.length_nil]
      omega)]
  simp only [List.nil_append]
  have hge : B ≤ l.length + 1 := by
    simp only [List.length_append, List.length_singleton] at hB
    omega
  simp [wrunEvents, wstep, hge, insertBatch]

theorem wrunF_crash_stops (B : Nat) :
    ∀ (ins : List (Option Nat × WIn)) (s0 : WSt) (more : List (Option Nat × WIn)),
      (wrunF B s0 ins).2.2 = true → wrunF B s0 (ins ++ more) = wrunF B s0 ins := by
  intro ins
  induction ins with
  | nil =>
    intro s0 more h
    simp [wrunF] at h
  | cons p rest ih =>
    intro s0 more h
    obtain ⟨f, i⟩ := p
    simp only [wrunF, List.cons_append, List.append_eq] at h ⊢
    cases hw : wstepF B f s0 i with
    | error sd => simp [hw]
    | ok q =>
      obtain ⟨s1, fl⟩ := q
      simp only [hw] at h ⊢
      have hc : (wrunF B s1 rest).2.2 = true := h
      rw [ih s1 more hc]

/-! ## Helper lemmas: realtime fan-out -/

theorem handleMsg_eq (jl : String → Except Unit JVal)
    (cb : Option (PVal → PVal → Except Unit Unit)) (m : Msg) :
    handleMsg jl cb m = .ok (deliveryOf jl cb.isSome m) := by
  unfold handleMsg deliveryOf
  by_cases ht : m.type_ = "message"
  · rw [if_neg (by simp [ht]), if_pos ht]
    cases hdd : m.data with
    | none => rfl
    | some d =>
      dsimp only
      by_cases hd : d.data = []
      · simp [hd]
      · rw [if_neg hd, if_neg hd]
        cases hj : jl d with
        | error u => simp [hj]
        | ok j =>
          cases j with
          | jother => simp [hj]
          | jdict jid line =>
            cases cb with
            | none => simp [hj]
            | some f =>
              by_cases hc : truthy jid ∧ line ≠ .vnone
              · cases hf : f jid line <;> simp [hj, hc, hf]
              · simp [hj, hc]
  · rw [if_pos (by simp [ht]), if_neg ht]

theorem listenerRun_eq (jl : String → Except Unit JVal)
    (cb : Option (PVal → PVal → Except Unit Unit)) (msgs : List Msg) :
    listenerRun jl cb msgs = ((msgs.map (deliveryOf jl cb.isSome)).flatten, false) := by
  induction msgs with
  | nil => rfl
  | cons m rest ih =>
    simp only [listenerRun, handleMsg_eq, List.map_cons, List.flatten_cons, ih]

theorem enum_map_fst_shift (w ts : Nat) (es : List String) :
    ((es.enum.map (fun p => (w + p.1, ts, p.2))).map (fun r => r.1))
      = (List.range es.length).map (fun i => w + i) := by
  rw [List.map_map, ← List.enum_map_fst es, List.map_map]
  rfl

/-! ## Claim theorems -/

/-- C1: each `_sync_logs_for_job` invocation with list length `L` and
watermark `w` is a no-op when `L ≤ w`; otherwise it reads exactly the slice of
indices `[w, min L (w + limit) - 1]`, assigns each entry a `seq` equal to its
list index, hands every entry read to `insert_job_logs`, and sets the
watermark to `w +` the number of entries read regardless of the insert's
outcome, so the watermark never decreases.  In the 5-line scenario with
watermark 0 and `maxBatch = 3`, the first call reads seq 0,1,2 and sets the
watermark to 3, the second reads seq 3,4 and sets it to 5, and durable storage
ends with exactly the rows seq 0..4. -/
theorem sync_logs_batch_slice_watermark
    (limit ts : Nat) (jobId : String) (st : RState) (l : List String) (w : Nat)
    (hl : (List.lookup jobId st.jobLogs).getD [] = l)
    (hw0 : parseWatermark (List.lookup jobId st.syncKeys) = w)
    (hlim : 1 ≤ limit) :
    (l.length ≤ w → syncLogsForJob limit ts jobId st = st)
    ∧ (w < l.length →
        syncLogsForJob limit ts jobId st =
          { st with
            logsTable := insertedTable jobId
              (((l.drop w).take (min l.length (w + limit) - w)).enum.map
                (fun p => (w + p.1, ts, p.2))) st.logsTable
            syncKeys := setA jobId
              (natToStr (w + ((l.drop w).take (min l.length (w + limit) - w)).length))
              st.syncKeys })
    ∧ ((((l.drop w).take (min l.length (w + limit) - w)).enum.map
        (fun p => (w + p.1, ts, p.2))).map (fun r => r.1)
        = (List.range ((l.drop w).take (min l.length (w + limit) - w)).length).map
            (fun i => w + i))
    ∧ w ≤ parseWatermark (List.lookup jobId (syncLogsForJob limit ts jobId st).syncKeys)
    ∧ (syncLogsForJob 3 7 "j1" st5).syncKeys = [("j1", "3")]
    ∧ (syncLogsForJob 3 7 "j1" st5).logsTable =
        [⟨"j1", 0, 7, "l0"⟩, ⟨"j1", 1, 7, "l1"⟩, ⟨"j1", 2, 7, "l2"⟩]
    ∧ (syncLogsForJob 3 8 "j1" (syncLogsForJob 3 7 "j1" st5)).syncKeys = [("j1", "5")]
    ∧ (syncLogsForJob 3 8 "j1" (syncLogsForJob 3 7 "j1" st5)).logsTable =
        [⟨"j1", 0, 7, "l0"⟩, ⟨"j1", 1, 7, "l1"⟩, ⟨"j1", 2, 7, "l2"⟩,
          ⟨"j1", 3, 8, "l3"⟩, ⟨"j1", 4, 8, "l4"⟩] := by
  have hstep : w < l.length →
      syncLogsForJob limit ts jobId st =
        { st with
          logsTable := insertedTable jobId
            (((l.drop w).take (min l.length (w + limit) - w)).enum.map
              (fun p => (w + p.1, ts, p.2))) st.logsTable
          syncKeys := setA jobId
            (natToStr (w + ((l.drop w).take (min l.length (w + limit) - w)).length))
            st.syncKeys } := by
    intro hw
    have hmin : min l.length (w + limit) - w = min (l.length - w) limit := by omega
    have hlen : ((l.drop w).take (min (l.length - w) limit)).length
        = min (l.length - w) limit := by
      rw [List.length_take, List.length_drop]
      omega
    rw [hmin, hlen]
    exact syncLogs_step limit ts jobId st l w hl hw0 hlim hw
  refine ⟨fun h => syncLogs_noop limit ts jobId st (by rw [hl, hw0]; exact h),
    hstep, ?_, ?_, by decide, by decide, by decide, by decide⟩
  · exact enum_map_fst_shift w ts ((l.drop w).take (min l.length (w + limit) - w))
  · by_cases hc : l.length ≤ w
    · rw [syncLogs_noop limit ts jobId st (by rw [hl, hw0]; exact hc), hw0]
    · rw [hstep (by omega)]
      show w ≤ parseWatermark (List.lookup jobId (setA jobId _ st.syncKeys))
      rw [lookup_setA_self, parseWatermark_natToStr]
      omega

theorem syncLogs_table_unique (limit ts : Nat) (jobId : String) (st : RState)
    (h : TableUnique st.logsTable) :
    TableUnique (syncLogsForJob limit ts jobId st).logsTable := by
  simp only [syncLogsForJob]
  split
  · exact h
  · split
    · exact h
    · exact insertedTable_unique h

theorem parseIntField_isOk (o : Option String) :
    (parseIntField o).isOk = intFieldOk o := by
  cases o with
  | none => rfl
  | some s =>
    simp only [parseIntField, intFieldOk]
    by_cases hd : s.data = []
    · simp [hd, Except.isOk, Except.toBool]
    · have hde : s.data.isEmpty = false := by simp [hd]
      cases hp : pyInt s <;> simp [hd, hp, hde, Except.isOk, Except.toBool]

/-- Witness for C1: the first scenario call at the concrete state, with every
hypothesis discharged. -/
theorem sync_logs_batch_slice_watermark_witness :
    ((0 : Nat) < 5) ∧ ((1 : Nat) ≤ 3) ∧
    (syncLogsForJob 3 7 "j1" st5).logsTable =
      [⟨"j1", 0, 7, "l0"⟩, ⟨"j1", 1, 7, "l1"⟩, ⟨"j1", 2, 7, "l2"⟩] := by
  have h := sync_logs_batch_slice_watermark 3 7 "j1" st5 ["l0", "l1", "l2", "l3", "l4"] 0
    (by decide) (by decide) (by decide)
  refine ⟨by decide, by decide, ?_⟩
  rw [h.2.1 (by decide)]
  decide

/-- C2: replaying the log-ingest path over the same rows never duplicates a
`(job_id, seq)` key: any `insert_job_logs` call preserves the primary-key
uniqueness of `job_logs`; a successful call replayed on its own result
silently skips every row (`.ok` with count 0, table unchanged) rather than
erroring; any sequence of calls from an empty table keeps the table unique;
and two consecutive `_sync_logs_for_job` runs (e.g. a crash-restart replay
before the watermark was persisted) keep the table unique. -/
theorem insert_job_logs_idempotent_no_duplicates
    (jobId : String) (rows : List (Nat × Nat × String)) (tbl tbl' : List LogRow) (k : Nat)
    (h : TableUnique tbl) :
    TableUnique (insertedTable jobId rows tbl)
    ∧ (insertJobLogs jobId rows tbl = .ok (k, tbl') →
        insertJobLogs jobId rows tbl' = .ok (0, tbl'))
    ∧ (∀ calls : List (String × List (Nat × Nat × String)),
        TableUnique (calls.foldl (fun t c => insertedTable c.1 c.2 t) []))
    ∧ (∀ limit ts ts' jobId2 st, TableUnique (RState.logsTable st) →
        TableUnique (syncLogsForJob limit ts' jobId2
          (syncLogsForJob limit ts jobId2 st)).logsTable) :=
  ⟨insertedTable_unique h, fun he => insertJobLogs_replay he, fold_insert_unique,
    fun limit ts ts' jobId2 st hu =>
      syncLogs_table_unique limit ts' jobId2 _ (syncLogs_table_unique limit ts jobId2 st hu)⟩

/-- Witness for C2: a one-row batch inserted into the empty table and replayed
on the result. -/
theorem insert_job_logs_idempotent_no_duplicates_witness :
    TableUnique ([] : List LogRow)
    ∧ TableUnique (insertedTable "j" [(0, 7, "a")] [])
    ∧ insertJobLogs "j" [(0, 7, "a")] [⟨"j", 0, 7, "a"⟩] = .ok (0, [⟨"j", 0, 7, "a"⟩]) := by
  have h := insert_job_logs_idempotent_no_duplicates "j" [(0, 7, "a")] []
    [⟨"j", 0, 7, "a"⟩] 1 (by unfold TableUnique; decide)
  exact ⟨by unfold TableUnique; decide, h.1, h.2.1 (by rfl)⟩

/-- C3 counterexample: with `BATCH_SIZE = 500` and `FLUSH_INTERVAL = 2` time
units, five events arriving 1 unit apart from the loop entry keep the buffer
nonempty from time 0 while time 4 ≥ T elapses with `last_flush` still at its
initial value — the claim ("a flush occurs when T elapses since the last
flush, whichever comes first") requires a flush, but the run flushes nothing:
`asyncio.wait_for`'s timeout restarts at every received item, so
`specTimingHolds` is violated and all five events are still buffered. -/
theorem batched_writer_no_flush_under_steady_traffic :
    specTimingHolds 500 2 cexArrivals = false
    ∧ (wrunTimed 500 2 0 ⟨[], []⟩ cexArrivals).2 = []
    ∧ (wrunTimed 500 2 0 ⟨[], []⟩ cexArrivals).1.buf.length = 5 := by decide

/-- C3 (amended): the writer flushes exactly when an appended record brings
the buffer to `BATCH_SIZE`, or when the queue yields no item for
`FLUSH_INTERVAL` after the last received item (not: after the last flush)
while the buffer is nonempty; every flush hands the entire current buffer to
the durable store in one `insert_batch` call.  Submitting `B-1` records and
then letting the queue go idle yields exactly one flush of `B-1` records, and
submitting `B` records in rapid succession yields exactly one flush of `B`
records with no timeout involved. -/
theorem batched_writer_flush_conditions
    (B : Nat) (s : WSt) (e : Event) (es es2 : List Event)
    (hne : es ≠ []) (hB1 : es.length + 1 = B)
    (hne2 : es2 ≠ []) (hB2 : es2.length = B) :
    ((wstep B s (WIn.item e)).2.isSome ↔ B ≤ s.buf.length + 1)
    ∧ ((wstep B s WIn.timeout).2.isSome ↔ s.buf ≠ [])
    ∧ (B ≤ s.buf.length + 1 →
        wstep B s (WIn.item e) =
          (⟨[], s.tbl ++ (s.buf ++ [e])⟩, some (s.buf ++ [e]).length))
    ∧ (s.buf ≠ [] →
        wstep B s WIn.timeout = (⟨[], s.tbl ++ s.buf⟩, some s.buf.length))
    ∧ wrunEvents B ⟨[], []⟩ (es.map WIn.item ++ [WIn.timeout]) = (⟨[], es⟩, [es.length])
    ∧ wrunEvents B ⟨[], []⟩ (es2.map WIn.item) = (⟨[], es2⟩, [es2.length]) := by
  refine ⟨?_, ?_, ?_, ?_, wrun_flush_on_timeout B es hne hB1,
    wrun_flush_on_size B es2 hne2 hB2⟩
  · by_cases hb : B ≤ s.buf.length + 1 <;> simp [wstep, insertBatch, hb]
  · by_cases hb : s.buf = [] <;> simp [wstep, insertBatch, hb]
  · intro hb
    simp [wstep, insertBatch, hb]
  · intro hb
    simp [wstep, insertBatch, hb]

/-- Witness for C3 (amended): `B = 3`, two items then a queue-idle timeout
flush exactly `[e0, e1]`; three rapid items flush all three at the third. -/
theorem batched_writer_flush_conditions_witness :
    ((2 : Nat) + 1 = 3) ∧
    wrunEvents 3 ⟨[], []⟩
        ([⟨"s", 0, "click", "x"⟩, ⟨"s", 1, "click", "y"⟩].map WIn.item ++ [WIn.timeout])
      = (⟨[], [⟨"s", 0, "click", "x"⟩, ⟨"s", 1, "click", "y"⟩]⟩, [2]) ∧
    wrunEvents 3 ⟨[], []⟩
        ([⟨"s", 0, "click", "x"⟩, ⟨"s", 1, "click", "y"⟩, ⟨"s", 2, "click", "z"⟩].map WIn.item)
      = (⟨[], [⟨"s", 0, "click", "x"⟩, ⟨"s", 1, "click", "y"⟩, ⟨"s", 2, "click", "z"⟩]⟩, [3]) := by
  have h := batched_writer_flush_conditions 3 ⟨[], []⟩ ⟨"s", 0, "click", "x"⟩
    [⟨"s", 0, "click", "x"⟩, ⟨"s", 1, "click", "y"⟩]
    [⟨"s", 0, "click", "x"⟩, ⟨"s", 1, "click", "y"⟩, ⟨"s", 2, "click", "z"⟩]
    (by decide) (by decide) (by decide) (by decide)
  exact ⟨by decide, h.2.2.2.2.1, h.2.2.2.2.2⟩

/-- C4: `upsert_job` is a full-row replace: after any upsert the table holds
exactly one row for that id — the freshly normalized row of the latest call,
independent of what was stored before — rows of other ids are untouched, the
primary-key uniqueness of `jobs` is preserved, and upserting the same id twice
(e.g. with different status) leaves exactly the second call's row. -/
theorem upsert_job_full_row_replace
    (now now2 : Nat) (j j2 : JobRecord) (tbl : List JobsRow)
    (h : JobsUnique tbl) (hid : j2.id = j.id) :
    ((upsertJob now j tbl).filter (fun r => decide (r.id = j.id)) = [jobsRowOf now j])
    ∧ (((upsertJob now j tbl).filter (fun r => decide (r.id = j.id))).length = 1)
    ∧ JobsUnique (upsertJob now j tbl)
    ∧ ((upsertJob now j tbl).filter (fun r => decide (r.id ≠ j.id)) =
        tbl.filter (fun r => decide (r.id ≠ j.id)))
    ∧ ((upsertJob now2 j2 (upsertJob now j tbl)).filter (fun r => decide (r.id = j.id)) =
        [jobsRowOf now2 j2]) := by
  refine ⟨upsertJob_filter_self now j tbl, by rw [upsertJob_filter_self]; rfl,
    upsertJob_unique h, upsertJob_filter_ne now j tbl, ?_⟩
  rw [← hid]
  exact upsertJob_filter_self now2 j2 (upsertJob now j tbl)

/-- Witness for C4: two upserts of id `j1` with different status leave exactly
one row, carrying the second call's values. -/
theorem upsert_job_full_row_replace_witness :
    JobsUnique ([] : List JobsRow) ∧ jobRunning.id = jobQueued.id ∧
    ((upsertJob 11 jobRunning (upsertJob 10 jobQueued [])).filter
      (fun r => decide (r.id = jobQueued.id)) = [jobsRowOf 11 jobRunning]) := by
  have h := upsert_job_full_row_replace 10 11 jobQueued jobRunning []
    (by unfold JobsUnique; decide) (by decide)
  exact ⟨by unfold JobsUnique; decide, by decide, h.2.2.2.2⟩

/-- C5 counterexample: for job `j1` whose hash has the malformed integer field
`created_at = "abc"`, the claim says the field is nulled and the job is still
upserted; in the code `int("abc")` raises, the per-job handler catches it and
`continue`s, so the job's upsert is skipped — after the cycle the `jobs` table
is still empty and the record construction is the error case. -/
theorem reconcile_malformed_int_skips_upsert :
    (syncJobsAndLogsOnce loadsNone 1000 7 9 [("j1", metaBad)] rstEmpty).jobsTable = []
    ∧ buildJobRecord loadsNone "j1" metaBad = .error () := by
  constructor
  · rfl
  · rfl

/-- C5 (amended): the reconciler's record construction succeeds exactly when
every *present* integer field parses (absent or empty fields become `null` and
never abort); a `params` string that fails JSON parsing is kept as the raw
string and never aborts; on success the job is upserted with those best-effort
values.  But an unparseable *integer* field makes the record construction
raise, so that job's upsert is skipped for the cycle — the per-job handler
keeps the cycle alive and later jobs are still processed, as in the concrete
two-job cycle where the bad job is skipped and the good one lands in `jobs`. -/
theorem reconcile_defensive_normalization
    (loads : String → Option String) (limit ts now : Nat) (jobId : String)
    (m : Meta) (st : RState) (rec : JobRecord) (s : String) :
    ((buildJobRecord loads jobId m).isOk =
      (intFieldOk m.created_at && intFieldOk m.started_at &&
        intFieldOk m.finished_at && intFieldOk m.exit_code))
    ∧ (buildJobRecord loads jobId m = .error () →
        processJob loads limit ts now st (jobId, m) = st)
    ∧ (buildJobRecord loads jobId m = .ok rec →
        (processJob loads limit ts now st (jobId, m)).jobsTable =
          upsertJob now rec st.jobsTable)
    ∧ (buildJobRecord loads jobId m = .ok rec → m.params = some s →
        s.data ≠ [] → loads s = none → rec.params = some (.raw s))
    ∧ ((syncJobsAndLogsOnce loadsNone 1000 7 9 [("bad", metaBad), ("good", metaGood)]
        rstEmpty).jobsTable =
        [{ id := "good", status := some "ok", created_at := 5, started_at := 0,
           finished_at := 0, exit_code := none, result_path := none, error := none,
           params := some "notjson", last_updated := 9 }]) := by
  refine ⟨?_, ?_, ?_, ?_, by rfl⟩
  · cases h1 : parseIntField m.created_at <;> cases h2 : parseIntField m.started_at <;>
      cases h3 : parseIntField m.finished_at <;> cases h4 : parseIntField m.exit_code <;>
        simp [buildJobRecord, h1, h2, h3, h4, Except.isOk, Except.toBool,
          ← parseIntField_isOk]
  · intro he
    simp [processJob, he]
  · intro he
    simp [processJob, he, syncLogs_jobsTable]
  · intro hok hp hs hl
    simp only [buildJobRecord] at hok
    split at hok
    · exact Except.noConfusion hok
    · split at hok
      · exact Except.noConfusion hok
      · split at hok
        · exact Except.noConfusion hok
        · split at hok
          · exact Except.noConfusion hok
          · injection hok with h
            subst h
            simp [hp, hs, hl]

/-- Witness for C5 (amended): the good job's record construction succeeds and
its upsert lands in the `jobs` table. -/
theorem reconcile_defensive_normalization_witness :
    buildJobRecord loadsNone "good" metaGood =
      .ok { id := "good", status := some "ok", created_at := some 5,
            started_at := none, finished_at := none, exit_code := none,
            result_path := none, error := none, params := some (.raw "notjson") }
    ∧ (processJob loadsNone 1000 7 9 rstEmpty ("good", metaGood)).jobsTable =
        upsertJob 9
          { id := "good", status := some "ok", created_at := some 5,
            started_at := none, finished_at := none, exit_code := none,
            result_path := none, error := none, params := some (.raw "notjson") }
          rstEmpty.jobsTable := by
  have h := reconcile_defensive_normalization loadsNone 1000 7 9 "good" metaGood rstEmpty
    { id := "good", status := some "ok", created_at := some 5,
      started_at := none, finished_at := none, exit_code := none,
      result_path := none, error := none, params := some (.raw "notjson") } "notjson"
  exact ⟨by rfl, h.2.2.1 (by rfl)⟩

/-- C6 counterexample: the claim says the sync resumes from the oldest
currently available entry and that the evicted seq range (here seq 1) is
permanently absent from durable storage.  In the code the sync keeps reading
at list *position* 1 of the trimmed list: durable storage ends up containing
a row with seq 1 — bearing `line3`, not the claim's absent gap — the oldest
available line `line2` is never read, and the stored rows are shifted by the
trim amount. -/
theorem sync_after_trim_stores_shifted_rows :
    (syncLogsForJob 1000 9 "j1" stTrim).logsTable =
      [⟨"j1", 0, 5, "line0"⟩, ⟨"j1", 1, 9, "line3"⟩, ⟨"j1", 2, 9, "line4"⟩,
        ⟨"j1", 3, 9, "line5"⟩]
    ∧ ((syncLogsForJob 1000 9 "j1" stTrim).logsTable.filter
        (fun r => decide (r.seq = 1))) = [⟨"j1", 1, 9, "line3"⟩]
    ∧ ((syncLogsForJob 1000 9 "j1" stTrim).logsTable.filter
        (fun r => decide (r.line = "line2"))) = [] := by
  refine ⟨by rfl, by rfl, by rfl⟩

/-- C6 (amended): when the ephemeral list has been trimmed (it now equals
`orig.drop d` for the original append sequence `orig`), the sync does not
crash: it continues reading at list position `w` (the watermark) of the
*trimmed* list, so the batch stored under seqs `w, w+1, …` holds the original
lines from index `d + w` on — the `d` evicted lines plus the `w` lines sitting
below the watermark after the shift are permanently lost, while no seq gap is
created.  In the concrete scenario the sync stores seqs 1..3 as
`line3..line5`, advances the watermark to 4 (so a second sync is a no-op), and
`line1`, `line2` are absent from durable storage forever. -/
theorem sync_after_trim_reads_watermark_position
    (limit ts d w : Nat) (jobId : String) (st : RState) (orig : List String)
    (hl : (List.lookup jobId st.jobLogs).getD [] = orig.drop d)
    (hw0 : parseWatermark (List.lookup jobId st.syncKeys) = w)
    (hlim : 1 ≤ limit) (hw : w < orig.length - d) :
    (syncLogsForJob limit ts jobId st =
      { st with
        logsTable := insertedTable jobId
          (((orig.drop (d + w)).take (min (orig.length - d - w) limit)).enum.map
            (fun p => (w + p.1, ts, p.2))) st.logsTable
        syncKeys := setA jobId (natToStr (w + min (orig.length - d - w) limit))
          st.syncKeys })
    ∧ (syncLogsForJob 1000 9 "j1" stTrim).syncKeys = [("j1", "4")]
    ∧ ((syncLogsForJob 1000 9 "j1" stTrim).logsTable.filter
        (fun r => decide (r.line = "line1" ∨ r.line = "line2"))) = []
    ∧ syncLogsForJob 1000 10 "j1" (syncLogsForJob 1000 9 "j1" stTrim) =
        syncLogsForJob 1000 9 "j1" stTrim := by
  refine ⟨?_, by rfl, by rfl, by rfl⟩
  have hlen : (orig.drop d).length = orig.length - d := List.length_drop d orig
  have hstep := syncLogs_step limit ts jobId st (orig.drop d) w hl hw0 hlim
    (by rw [hlen]; exact hw)
  rw [hstep]
  rw [List.drop_drop, hlen]

/-- Witness for C6 (amended): the trimmed scenario state instantiates the
characterization with `orig = line0..line5`, `d = 2`, `w = 1`. -/
theorem sync_after_trim_reads_watermark_position_witness :
    ((List.lookup "j1" stTrim.jobLogs).getD [] =
      (["line0", "line1", "line2", "line3", "line4", "line5"].drop 2))
    ∧ ((1 : Nat) < 6 - 2)
    ∧ (syncLogsForJob 1000 9 "j1" stTrim).syncKeys = [("j1", "4")] := by
  have h := sync_after_trim_reads_watermark_position 1000 9 2 1 "j1" stTrim
    ["line0", "line1", "line2", "line3", "line4", "line5"]
    (by rfl) (by rfl) (by decide) (by decide)
  exact ⟨by rfl, by decide, h.2.1⟩

/-- C7 counterexample: the claim says a durable-store failure leaves the
buffered records "preserved unchanged for a later flush" with state unchanged
on error.  With `BATCH_SIZE = 500`, two buffered events and a store that
raises after writing one row during a *timeout-triggered* flush: the raise
happens inside the `except asyncio.TimeoutError:` handler, is not caught by
the sibling `except Exception`, and escapes the `while` loop — the run dies
with both records still buffered, the durable table holding the partial
prefix `[evA]`, no flush ever, and the remaining queue activity (which a live
writer would have flushed, as the healthy run of the same trace shows) never
processed.  There is no later flush, and the durable state did change. -/
theorem batched_writer_timeout_flush_failure_kills_task :
    wstepF 500 (some 1) ⟨[evA, evB], []⟩ WIn.timeout = .error ⟨[evA, evB], [evA]⟩
    ∧ wrunF 500 ⟨[], []⟩ crashTrace = (⟨[evA, evB], [evA]⟩, [], true)
    ∧ wrunF 500 ⟨[], []⟩ healthyTrace = (⟨[], [evA, evB, evC]⟩, [2, 1], false) := by
  refine ⟨by rfl, by rfl, by rfl⟩

/-- C7 (amended): the buffer is cleared only on the line after `insert_batch`
returns, so a failing flush never corrupts or partially clears the buffered
records.  A failed *size-triggered* flush is raised inside the `try` body and
caught by the `except Exception` handler: the records, the appended item
included, stay buffered unchanged, the loop continues, and a later healthy
flush writes exactly those records.  A failed *timeout-triggered* flush is
raised inside the `except asyncio.TimeoutError:` handler, which the sibling
`except Exception` clause does not cover: the exception escapes the `while`
loop and terminates the writer task with the records still buffered, never to
be retried.  Because `executemany` runs without a transaction, a failing
flush of either kind can leave a written prefix of the batch in the durable
table.  After any successful flush the buffer is empty, and with a healthy
store the loop agrees with the base model `wstep`. -/
theorem batched_writer_failure_paths
    (B : Nat) (s : WSt) (e : Event) (k : Nat) :
    (B ≤ s.buf.length + 1 →
      wstepF B (some k) s (WIn.item e) =
        .ok (⟨s.buf ++ [e], s.tbl ++ (s.buf ++ [e]).take k⟩, none))
    ∧ (wstepF B none ⟨s.buf ++ [e], s.tbl⟩ WIn.timeout =
        .ok (⟨[], s.tbl ++ (s.buf ++ [e])⟩, some (s.buf.length + 1)))
    ∧ (s.buf ≠ [] →
      wstepF B (some k) s WIn.timeout = .error ⟨s.buf, s.tbl ++ s.buf.take k⟩)
    ∧ (∀ (s0 : WSt) (ins more : List (Option Nat × WIn)),
        (wrunF B s0 ins).2.2 = true → wrunF B s0 (ins ++ more) = wrunF B s0 ins)
    ∧ (B ≤ s.buf.length + 1 →
      wstepF B none s (WIn.item e) =
        .ok (⟨[], s.tbl ++ (s.buf ++ [e])⟩, some (s.buf.length + 1)))
    ∧ (s.buf ≠ [] →
      wstepF B none s WIn.timeout = .ok (⟨[], s.tbl ++ s.buf⟩, some s.buf.length))
    ∧ (∀ i, wstepF B none s i = .ok (wstep B s i)) := by
  refine ⟨?_, ?_, ?_, fun s0 ins more h => wrunF_crash_stops B ins s0 more h, ?_, ?_, ?_⟩
  · intro hb
    simp [wstepF, insertBatchF, hb]
  · simp [wstepF, insertBatchF]
  · intro hb
    simp [wstepF, insertBatchF, hb]
  · intro hb
    simp [wstepF, insertBatchF, hb]
  · intro hb
    simp [wstepF, insertBatchF, hb]
  · intro i
    cases i with
    | item e2 =>
      by_cases hb : B ≤ s.buf.length + 1 <;> simp [wstepF, wstep, insertBatchF, insertBatch, hb]
    | timeout =>
      by_cases hb : s.buf = [] <;> simp [wstepF, wstep, insertBatchF, insertBatch, hb]

/-- Witness for C7 (amended): `B = 2`.  A size-path failure that wrote one
partial row preserves both buffered records and the loop survives; the retry
flushes exactly those records; a timeout-path failure with the same store
escapes the loop with the records still buffered. -/
theorem batched_writer_failure_paths_witness :
    ((2 : Nat) ≤ 1 + 1)
    ∧ ([evA, evB] : List Event) ≠ []
    ∧ wstepF 2 (some 1) ⟨[evA], []⟩ (WIn.item evB) = .ok (⟨[evA, evB], [evA]⟩, none)
    ∧ wstepF 2 none ⟨[evA, evB], []⟩ WIn.timeout = .ok (⟨[], [evA, evB]⟩, some 2)
    ∧ wstepF 2 (some 1) ⟨[evA, evB], []⟩ WIn.timeout = .error ⟨[evA, evB], [evA]⟩ := by
  have h := batched_writer_failure_paths 2 ⟨[evA], []⟩ evB 1
  have h2 := batched_writer_failure_paths 2 ⟨[evA, evB], []⟩ evC 1
  exact ⟨by decide, by decide, h.1 (by decide), h.2.1, h2.2.2.1 (by decide)⟩

/-- C8: over any finite message trace, the fan-out loop processes every
message (it never crashes: the second component is always `false`), each
message's deliveries are exactly the per-message contract `deliveryOf` —
independent of neighbouring messages and of whether the callback raises — a
malformed message (JSON parse failure, or a non-object payload on which
`.get` raises) is dropped silently, and swapping one raising callback for
another never changes the deliveries attempted. -/
theorem listener_survives_malformed_and_callback_faults
    (jl : String → Except Unit JVal) (cb : Option (PVal → PVal → Except Unit Unit))
    (msgs : List Msg) (m : Msg) :
    (listenerRun jl cb msgs = ((msgs.map (deliveryOf jl cb.isSome)).flatten, false))
    ∧ (handleMsg jl cb m = .ok (deliveryOf jl cb.isSome m))
    ∧ (∀ d, m.data = some d → (jl d = .error () ∨ jl d = .ok .jother) →
        handleMsg jl cb m = .ok [])
    ∧ (∀ f g : PVal → PVal → Except Unit Unit,
        listenerRun jl (some f) msgs = listenerRun jl (some g) msgs) := by
  refine ⟨listenerRun_eq jl cb msgs, handleMsg_eq jl cb m, ?_, ?_⟩
  · intro d hd hj
    rw [handleMsg_eq]
    have : deliveryOf jl cb.isSome m = [] := by
      unfold deliveryOf
      by_cases ht : m.type_ = "message"
      · rw [if_pos ht, hd]
        dsimp only
        by_cases hdd : d.data = []
        · simp [hdd]
        · rcases hj with hj | hj <;> simp [hdd, hj]
      · rw [if_neg ht]
    rw [this]
  · intro f g
    rw [listenerRun_eq, listenerRun_eq]
    rfl

/-- Witness for C8: a trace of one unparseable message, one non-object
message and one valid message, with a callback that raises on delivery: the
loop survives, drops the two malformed messages, and still delivers the valid
one. -/
theorem listener_survives_malformed_and_callback_faults_witness :
    (msgOf "bad").data = some "bad" ∧ jlC8 "bad" = .error () ∧
    handleMsg jlC8 (some cbThrow) (msgOf "bad") = .ok [] ∧
    listenerRun jlC8 (some cbThrow) [msgOf "bad", msgOf "nondict", msgOf "good"]
      = ([(.vstr "j1", .vstr "hello")], false) := by
  have h := listener_survives_malformed_and_callback_faults jlC8 (some cbThrow)
    [msgOf "bad", msgOf "nondict", msgOf "good"] (msgOf "bad")
  refine ⟨by rfl, by rfl, h.2.2.1 "bad" (by rfl) (Or.inl (by rfl)), ?_⟩
  rw [h.1]
  rfl

/-- C10: for a well-formed broadcast message the delivery decision is exactly
`if _emit_cb and job_id and line is not None`: with a callback registered, a
payload is delivered iff `job_id` is truthy and `line` is not `None` — so an
empty-string `line` is still delivered, while an empty-string, absent
(`None`), zero or `False` `job_id` is dropped — and with no callback
registered nothing is ever delivered. -/
theorem fanout_truthiness_delivery
    (jl : String → Except Unit JVal) (f : PVal → PVal → Except Unit Unit)
    (m : Msg) (d : String) (jid line : PVal)
    (ht : m.type_ = "message") (hd : m.data = some d) (hdd : d.data ≠ [])
    (hj : jl d = .ok (.jdict jid line)) :
    (handleMsg jl (some f) m =
      .ok (if truthy jid ∧ line ≠ .vnone then [(jid, line)] else []))
    ∧ (∀ m' : Msg, handleMsg jl none m' = .ok [])
    ∧ handleMsg jlC10 (some cbOk) (msgOf "empty-line") = .ok [(.vstr "j1", .vstr "")]
    ∧ handleMsg jlC10 (some cbOk) (msgOf "empty-jid") = .ok []
    ∧ handleMsg jlC10 (some cbOk) (msgOf "zero-jid") = .ok []
    ∧ handleMsg jlC10 (some cbOk) (msgOf "false-jid") = .ok []
    ∧ handleMsg jlC10 (some cbOk) (msgOf "none-jid") = .ok []
    ∧ handleMsg jlC10 (some cbOk) (msgOf "none-line") = .ok [] := by
  refine ⟨?_, ?_, by rfl, by rfl, by rfl, by rfl, by rfl, by rfl⟩
  · rw [handleMsg_eq]
    unfold deliveryOf
    rw [if_pos ht, hd]
    dsimp only
    rw [if_neg hdd, hj]
    simp
  · intro m'
    rw [handleMsg_eq]
    have hz : deliveryOf jl (none : Option (PVal → PVal → Except Unit Unit)).isSome m'
        = [] := by
      unfold deliveryOf
      by_cases ht' : m'.type_ = "message"
      · rw [if_pos ht']
        cases hdm : m'.data with
        | none => rfl
        | some d' =>
          dsimp only
          by_cases hdd' : d'.data = []
          · simp [hdd']
          · rw [if_neg hdd']
            cases hj' : jl d' with
            | error u => rfl
            | ok j' =>
              cases j' with
              | jother => rfl
              | jdict jid' line' => simp
      · rw [if_neg ht']
    rw [hz]

/-- Witness for C10: the empty-string-line message delivered through the
general characterization. -/
theorem fanout_truthiness_delivery_witness :
    (msgOf "empty-line").type_ = "message"
    ∧ jlC10 "empty-line" = .ok (.jdict (.vstr "j1") (.vstr ""))
    ∧ handleMsg jlC10 (some cbOk) (msgOf "empty-line") =
        .ok (if truthy (.vstr "j1") ∧ (PVal.vstr "") ≠ .vnone
          then [((.vstr "j1" : PVal), (.vstr "" : PVal))] else []) := by
  have h := fanout_truthiness_delivery jlC10 cbOk (msgOf "empty-line") "empty-line"
    (.vstr "j1") (.vstr "") (by rfl) (by rfl) (by decide) (by rfl)
  exact ⟨by rfl, by rfl, h.1⟩

/-- C9: an absent watermark value, or any stored string that is not composed
solely of decimal digits (empty, negative, corrupted), parses as 0, so the
sync re-reads the job's list from index 0; `insert_job_logs`'s pre-filter
keeps the re-read from adding duplicate `(job_id, seq)` rows: uniqueness of
the durable table is preserved, and a batch that was already fully inserted
is silently skipped. -/
theorem watermark_fallback_rereads_from_zero
    (s : String) (limit ts : Nat) (jobId jid2 : String) (st : RState) (l : List String)
    (rows : List (Nat × Nat × String)) (tbl tbl2 : List LogRow) (k : Nat)
    (hmal : ¬ (s.data ≠ [] ∧ s.data.all Char.isDigit))
    (hk : List.lookup jobId st.syncKeys = some s ∨ List.lookup jobId st.syncKeys = none)
    (hl : (List.lookup jobId st.jobLogs).getD [] = l)
    (hlim : 1 ≤ limit) (hne : 0 < l.length)
    (hu : TableUnique tbl) :
    parseWatermark (List.lookup jobId st.syncKeys) = 0
    ∧ (syncLogsForJob limit ts jobId st =
        { st with
          logsTable := insertedTable jobId
            (((l.drop 0).take (min (l.length - 0) limit)).enum.map
              (fun p => (0 + p.1, ts, p.2))) st.logsTable
          syncKeys := setA jobId (natToStr (0 + min (l.length - 0) limit)) st.syncKeys })
    ∧ TableUnique (insertedTable jid2 rows tbl)
    ∧ (insertJobLogs jid2 rows tbl = .ok (k, tbl2) →
        insertJobLogs jid2 rows tbl2 = .ok (0, tbl2))
    ∧ parseWatermark (some "-3") = 0 ∧ parseWatermark (some "12a") = 0
    ∧ parseWatermark (some "") = 0 ∧ parseWatermark none = 0 := by
  have hw0 : parseWatermark (List.lookup jobId st.syncKeys) = 0 := by
    rcases hk with hk | hk <;> rw [hk]
    · exact if_neg hmal
    · rfl
  refine ⟨hw0, ?_, insertedTable_unique hu, fun he => insertJobLogs_replay he,
    by decide, by decide, by decide, by decide⟩
  exact syncLogs_step limit ts jobId st l 0 hl hw0 hlim hne

/-- Witness for C9: at the corrupted watermark `"oops"` the sync re-reads
both lines from index 0 and the pre-filter leaves the durable table exactly
as it was (no duplicates), while the watermark is repaired to `"2"`. -/
theorem watermark_fallback_rereads_from_zero_witness :
    (¬ (("oops".data ≠ []) ∧ "oops".data.all Char.isDigit))
    ∧ parseWatermark (List.lookup "j1" stMal.syncKeys) = 0
    ∧ (syncLogsForJob 10 4 "j1" stMal).logsTable = stMal.logsTable
    ∧ (syncLogsForJob 10 4 "j1" stMal).syncKeys = [("j1", "2")] := by
  have h := watermark_fallback_rereads_from_zero "oops" 10 4 "j1" "j" stMal
    ["x0", "x1"] [] [] [] 0 (by decide) (Or.inl (by rfl)) (by rfl) (by decide)
    (by decide) (by unfold TableUnique; decide)
  refine ⟨by decide, h.1, ?_, ?_⟩
  · rw [h.2.1]
    rfl
  · rw [h.2.1]
    rfl
